import Mathlib

/-!
Verification of the `ts-node-sql-migrator` migration runner (`src/index.ts`).

The runner is a single-file CLI that tracks applied SQL scripts in a ledger
table (`node_migrator_migrations` / `node_migrator_seeds`) and supports four
actions: `up`, `down`, `reset`, `new`.  We embed its state and the four
action functions (`migrateUp`, `migrateDown`, `migrateReset`,
`generateMigration`) as pure Lean functions:

* the script directory is an association list `filename ↦ contents`
  (`fs.readdirSync` + `fs.readFileSync`);
* a ledger table is a list of version strings in insertion order (row
  `created_at` is ascending with insertion, so "most recently applied,
  `ORDER BY created_at DESC LIMIT 1`" is the last element);
* SQL execution is an oracle `fails : String → Bool` telling which script
  bodies raise, and each action returns the list of script bodies it sent to
  the database together with the resulting state;
* JavaScript string operations (`split`, `startsWith`, `endsWith`, `sort`)
  are modelled character-exactly on `List Char`.
-/

/-! ### JavaScript string primitives -/

/-- `matchesAt sep s`: `sep` occurs at the start of `s`. -/
def matchesAt : List Char → List Char → Bool
  | [], _ => true
  | _ :: _, [] => false
  | c :: cs, d :: ds => c = d && matchesAt cs ds

/-- First occurrence of `sep` in `s`: `some (before, after)` where `before`
is the (occurrence-free) text before the first occurrence and `after` the
text following it; `none` when `sep` does not occur. -/
def findOcc (sep : List Char) : List Char → Option (List Char × List Char)
  | [] => none
  | c :: s =>
    if matchesAt sep (c :: s) then some ([], (c :: s).drop sep.length)
    else match findOcc sep s with
      | some (b, a) => some (c :: b, a)
      | none => none

/-- JS `s.split(sep)` first occurrence, on `String`. -/
def jsSplitFirst (s sep : String) : Option (String × String) :=
  match findOcc sep.data s.data with
  | some (b, a) => some (⟨b⟩, ⟨a⟩)
  | none => none

/-- JS `s.split(sep)[0]`: the text before the first occurrence of `sep`,
or all of `s` when `sep` does not occur. -/
def jsSplitHead (s sep : String) : String :=
  match jsSplitFirst s sep with
  | some (b, _) => b
  | none => s

/-- JS `s.split(sep)[1] || ''`: the text strictly between the first and the
second occurrence of `sep` (to the end of `s` when there is no second
occurrence), and `""` when `sep` does not occur at all. -/
def jsSplitSecond (s sep : String) : String :=
  match jsSplitFirst s sep with
  | some (_, a) => jsSplitHead a sep
  | none => ""

/-- JS `s.endsWith(suffix)`. -/
def strEndsWith (s suf : String) : Bool :=
  matchesAt suf.data.reverse s.data.reverse

/-- JS `s.startsWith(p)`. -/
def strStartsWith (s p : String) : Bool :=
  matchesAt p.data s.data

/-- Lexicographic `≤` on strings by character code, the order JS
`Array.prototype.sort()` uses on (ASCII) filenames. -/
def strLe (a b : String) : Bool :=
  go a.data b.data
where
  go : List Char → List Char → Bool
    | [], _ => true
    | _ :: _, [] => false
    | c :: cs, d :: ds => if c = d then go cs ds else decide (c < d)

/-- The sort relation fed to `List.insertionSort`, modelling JS `.sort()`. -/
def strLeR (a b : String) : Prop := strLe a b = true

instance : DecidableRel strLeR := fun a b => by
  unfold strLeR; infer_instance

/-- `insertionSort strLeR`, the model of JS `Array.prototype.sort()`. -/
def jsSort (l : List String) : List String :=
  List.insertionSort strLeR l

/-! ### Script store: markers, version parsing, body extraction
(`src/index.ts` lines 82, 90-91, 94, 118, 124-125, 152, 172-173, 197-207) -/

/-- The literal UP marker, `'-- +migrator UP'`. -/
def upMarker : String := "-- +migrator UP"

/-- The literal DOWN marker, `'-- +migrator DOWN'`. -/
def downMarker : String := "-- +migrator DOWN"

/-- `file.split('_')[0]` — the version of a script filename
(lines 82, 94, 152, 159). -/
def parseVersion (file : String) : String :=
  jsSplitHead file "_"

/-- Lines 90-91: `migrationScripts.split('-- +migrator UP')[1] || ''` then
`.split('-- +migrator DOWN')[0] || ''` — the UP body sent to the database
by `migrateUp`. -/
def extractUp (contents : String) : String :=
  jsSplitHead (jsSplitSecond contents upMarker) downMarker

/-- Lines 124-125 and 172-173:
`migrationScripts.split('-- +migrator DOWN')[1] || ''` then
`.split('-- +migrator UP')[0] || ''` — the DOWN body sent to the database by
`migrateDown` and `migrateReset`. -/
def extractDown (contents : String) : String :=
  jsSplitHead (jsSplitSecond contents downMarker) upMarker

/-- Modelled from the spec: "`extractDown(fileContents) -> sql`: text
strictly after the DOWN marker line to end of file; empty string if absent"
— the suffix of the file following the first occurrence of the DOWN marker,
with no further truncation.  Stated for comparison with `extractDown`,
the function the code implements. -/
def extractDownSpec (contents : String) : String :=
  match jsSplitFirst contents downMarker with
  | some (_, a) => a
  | none => ""

/-! ### State -/

/-- The script directory for one kind: `filename ↦ contents`
(`fs.readdirSync` lists the keys, `fs.readFileSync` looks a key up). -/
def Dir := List (String × String)

/-- `fs.readdirSync(scriptsDir)`. -/
def readdir (dir : Dir) : List String :=
  (dir : List (String × String)).map Prod.fst

/-- `fs.readFileSync(join(scriptsDir, file), 'utf8')` for a listed file. -/
def readFile (dir : Dir) (file : String) : String :=
  ((dir : List (String × String)).lookup file).getD ""

/-- `--type`: `'migration'` or `'seed'`. -/
inductive Kind
  | migration
  | seed
deriving DecidableEq

/-! ### `migrateUp` (lines 73-104) -/

/-- Line 80-84: `fs.readdirSync(scriptsDir).filter(file => { const
isVersion = versions.includes(file.split('_')[0]); return !isVersion &&
file.endsWith('.sql') }).sort()` — the pending files, ascending. -/
def upPending (dir : Dir) (versions : List String) : List String :=
  jsSort ((readdir dir).filter fun file =>
    !(versions.contains (parseVersion file)) && strEndsWith file ".sql")

/-- Result of one action run: the error it threw (if any), the script
bodies it executed via `db.query` in order, and the ledger rows after. -/
structure RunResult where
  err : Option String
  sqls : List String
  ledger : List String
deriving DecidableEq

/-- The `for` loop of lines 86-97: for each pending file execute its UP
body; on failure abort (the `catch` of line 100); on success
`INSERT INTO node_migrator_<type>s (version)` its version and continue. -/
def upLoop (fails : String → Bool) (dir : Dir) :
    List String → List String → List String → RunResult
  | [], sqls, ledger => ⟨none, sqls.reverse, ledger⟩
  | file :: rest, sqls, ledger =>
    let sql := extractUp (readFile dir file)
    if fails sql then ⟨some file, (sql :: sqls).reverse, ledger⟩
    else upLoop fails dir rest (sql :: sqls) (ledger ++ [parseVersion file])

/-- `migrateUp` (lines 73-104): load applied versions, list pending files
ascending, apply each in order.  `err = some file` records the file whose
UP body raised (`Migration UP failed`, exit 1). -/
def migrateUp (fails : String → Bool) (dir : Dir) (ledger : List String) :
    RunResult :=
  upLoop fails dir (upPending dir ledger) [] ledger

/-! ### `migrateDown` (lines 106-134) -/

/-- The errors `migrateDown` can throw. -/
inductive DownError
  | seedUnsupported
  | noApplied
  | scriptNotFound (version : String)
deriving DecidableEq

/-- Result of a `migrateDown` run. -/
structure DownResult where
  err : Option DownError
  sqls : List String
  ledger : List String
deriving DecidableEq

/-- Lines 117-118: `fs.readdirSync(scriptsDir).find(file =>
file.startsWith(`${version}_`) && file.endsWith('.sql'))`. -/
def findScript (dir : Dir) (version : String) : Option String :=
  (readdir dir).find? (fun file =>
    strStartsWith file (version ++ "_") && strEndsWith file ".sql")

/-- `migrateDown` (lines 106-134).  The seed guard (lines 107-109) throws
before the database is touched.  For migrations: the most recently applied
version is `rows[0]` of `ORDER BY created_at DESC LIMIT 1` — the last
ledger row (line 114-115; an empty ledger throws reading `.version` of
`undefined`); the script is located by `find` over the directory (117-118);
its DOWN body is executed and the version's rows deleted (124-128). -/
def migrateDown (dir : Dir) (ledger : List String) (kind : Kind) :
    DownResult :=
  match kind with
  | .seed => ⟨some .seedUnsupported, [], ledger⟩
  | .migration =>
    match ledger.getLast? with
    | none => ⟨some .noApplied, [], ledger⟩
    | some version =>
      match findScript dir version with
      | none => ⟨some (.scriptNotFound version), [], ledger⟩
      | some file =>
        ⟨none, [extractDown (readFile dir file)],
          ledger.filter (fun v => v ≠ version)⟩

/-- One `migrateDown` step viewed on the ledger alone (used to iterate). -/
def downStep (dir : Dir) (ledger : List String) :
    Except DownError (List String) :=
  match (migrateDown dir ledger .migration).err with
  | some e => .error e
  | none => .ok (migrateDown dir ledger .migration).ledger

/-- `n` successive `migrateDown` invocations on migrations. -/
def iterDown (dir : Dir) (ledger : List String) : Nat → Except DownError (List String)
  | 0 => .ok ledger
  | n + 1 =>
    match downStep dir ledger with
    | .error e => .error e
    | .ok ledger' => iterDown dir ledger' n

/-! ### `migrateReset` (lines 136-186) -/

/-- The two ledger tables.  `none` means the table does not exist; the
runner's `CREATE TABLE IF NOT EXISTS` (lines 39-43) guarantees the acted-on
kind's table exists before any non-`new` action. -/
structure Db where
  migTable : Option (List String)
  seedTable : Option (List String)
deriving DecidableEq

/-- Result of a `migrateReset` run: the error thrown (the missing-version
list of line 165, if any), the script bodies executed, and both tables
after. -/
structure ResetResult where
  err : Option (List String)
  sqls : List String
  db : Db
deriving DecidableEq

/-- `migrateReset` (lines 136-186).  Seeds: drop the seed table and return
(140-144).  Migrations: read the applied versions (145-146); list the
`.sql` files whose version is applied, descending (150-154); the loop of
156-161 re-collects them (`files.includes(file)` is always true); if the
file count differs from the row count, throw the missing versions
(163-166); otherwise execute each file's DOWN body in order (168-177), then
`DELETE FROM node_migrator_migrations` (179) and
`DROP TABLE IF EXISTS node_migrator_seeds` (180). -/
def migrateReset (dir : Dir) (db : Db) (kind : Kind) : ResetResult :=
  match kind with
  | .seed => ⟨none, [], { db with seedTable := none }⟩
  | .migration =>
    let versions := db.migTable.getD []
    let files := (jsSort ((readdir dir).filter fun file =>
      versions.contains (parseVersion file) && strEndsWith file ".sql")).reverse
    let scripts := files.filter (fun file => files.contains file)
    let availableVersions := scripts.map parseVersion
    if scripts.length ≠ versions.length then
      ⟨some (versions.filter fun v => !availableVersions.contains v), [], db⟩
    else
      ⟨none, scripts.map (fun file => extractDown (readFile dir file)),
        { migTable := some [], seedTable := none }⟩

/-! ### `generateMigration` (lines 188-211) -/

/-- The filesystem seen by `new`: whether the scripts directory exists, and
the files as a map `path ↦ contents`. -/
structure FsState where
  dirExists : Bool
  files : String → Option String

/-- The template written by `new` (lines 197-207). -/
def migrationTemplate : String :=
  "-- +migrator UP\n-- +migrator statement BEGIN\n\n-- +migrator statement END\n\n\n-- +migrator DOWN\n-- +migrator statement BEGIN\n\n-- +migrator statement END\n"

/-- `generateMigration` (lines 188-211): throw when `name` is empty (189);
otherwise ensure the directory exists (193-195) and write
`{timestamp}_{name}.sql` with the template (191, 208), overwriting any
existing file at that path (`fs.writeFileSync`).  `err = some ()` is the
`name argument required` throw. -/
def generateMigration (fsS : FsState) (name timestamp : String) :
    Option Unit × FsState :=
  if name.length < 1 then (some (), fsS)
  else
    let path := timestamp ++ "_" ++ name ++ ".sql"
    (none,
      { dirExists := true,
        files := fun p =>
          if p = path then some migrationTemplate else fsS.files p })

/-- Versions of the `.sql` files of a directory (`versions(S)` of the
spec's §8 property). -/
def sqlVersions (dir : Dir) : List String :=
  ((readdir dir).filter (fun file => strEndsWith file ".sql")).map parseVersion

/-! ### Lemmas on the string primitives -/

theorem matchesAt_iff (sep s : List Char) :
    matchesAt sep s = true ↔ ∃ r, s = sep ++ r := by
  induction sep generalizing s with
  | nil => simp [matchesAt]
  | cons c cs ih =>
    cases s with
    | nil => simp [matchesAt]
    | cons d ds =>
      simp only [matchesAt, Bool.and_eq_true, decide_eq_true_iff, ih,
        List.cons_append, List.cons_eq_cons]
      constructor
      · rintro ⟨rfl, r, rfl⟩; exact ⟨r, rfl, rfl⟩
      · rintro ⟨r, rfl, rfl⟩; exact ⟨rfl, r, rfl⟩

theorem findOcc_isSome (sep : List Char) (hsep : sep ≠ []) (s : List Char) :
    (findOcc sep s).isSome = true ↔ ∃ x y, s = x ++ sep ++ y := by
  induction s with
  | nil =>
    rw [findOcc]
    simp only [Option.isSome_none, Bool.false_eq_true, false_iff, not_exists]
    intro x y h
    cases sep with
    | nil => exact hsep rfl
    | cons c cs => cases x <;> simp at h
  | cons c s ih =>
    rw [findOcc]
    by_cases hm : matchesAt sep (c :: s) = true
    · rw [if_pos hm]
      obtain ⟨r, hr⟩ := (matchesAt_iff _ _).1 hm
      simpa using ⟨[], r, by simpa using hr⟩
    · rw [if_neg hm]
      have hstep : (match findOcc sep s with
          | some (b, a) => some (c :: b, a)
          | none => none).isSome = (findOcc sep s).isSome := by
        cases findOcc sep s with
        | none => rfl
        | some p => cases p; rfl
      rw [hstep, ih]
      constructor
      · rintro ⟨x, y, rfl⟩; exact ⟨c :: x, y, by simp⟩
      · rintro ⟨x, y, hxy⟩
        cases x with
        | nil =>
          exact absurd ((matchesAt_iff _ _).2 ⟨y, by simpa using hxy⟩) hm
        | cons c' x =>
          simp only [List.cons_append, List.cons_eq_cons, List.append_assoc] at hxy
          exact ⟨x, y, by simpa [List.append_assoc] using hxy.2⟩

theorem findOcc_spec (sep : List Char) (s b a : List Char)
    (h : findOcc sep s = some (b, a)) :
    s = b ++ sep ++ a ∧ ∀ x y, s = x ++ sep ++ y → b.length ≤ x.length := by
  induction s generalizing b a with
  | nil => rw [findOcc] at h; exact absurd h (by simp)
  | cons c s ih =>
    rw [findOcc] at h
    by_cases hm : matchesAt sep (c :: s) = true
    · rw [if_pos hm] at h
      obtain ⟨r, hr⟩ := (matchesAt_iff _ _).1 hm
      simp only [Option.some.injEq, Prod.mk.injEq] at h
      obtain ⟨hb, ha⟩ := h
      subst hb
      have hdrop : (c :: s).drop sep.length = r := by
        rw [hr]; exact List.drop_left sep r
      constructor
      · rw [← ha, hdrop]; simpa using hr
      · intro x y _; simp
    · rw [if_neg hm] at h
      cases hfo : findOcc sep s with
      | none => rw [hfo] at h; exact absurd h (by simp)
      | some p =>
        obtain ⟨b', a'⟩ := p
        rw [hfo] at h
        simp only [Option.some.injEq, Prod.mk.injEq] at h
        obtain ⟨hb, ha⟩ := h
        obtain ⟨ih1, ih2⟩ := ih b' a' hfo
        subst hb ha
        constructor
        · simpa using ih1
        · intro x y hxy
          cases x with
          | nil =>
            exact absurd ((matchesAt_iff _ _).2 ⟨y, by simpa using hxy⟩) hm
          | cons c' x =>
            simp only [List.cons_append, List.cons_eq_cons, List.append_assoc] at hxy
            have := ih2 x y (by simpa [List.append_assoc] using hxy.2)
            simpa using Nat.succ_le_succ this

theorem jsSplitFirst_eq_none (s sep : String) (hsep : sep ≠ "")
    (h : ∀ x y : String, s ≠ x ++ sep ++ y) : jsSplitFirst s sep = none := by
  rw [jsSplitFirst]
  cases hfo : findOcc sep.data s.data with
  | none => rfl
  | some p =>
    obtain ⟨b, a⟩ := p
    obtain ⟨h1, _⟩ := findOcc_spec _ _ _ _ hfo
    have hs : s = (⟨b⟩ : String) ++ sep ++ ⟨a⟩ :=
      String.ext (by simpa [String.data_append] using h1)
    exact absurd hs (h _ _)

theorem jsSplitFirst_eq_some (s sep x y : String) (hsep : sep ≠ "")
    (h : s = x ++ sep ++ y)
    (hmin : ∀ x' y' : String, s = x' ++ sep ++ y' → x.length ≤ x'.length) :
    jsSplitFirst s sep = some (x, y) := by
  have hdata : s.data = x.data ++ sep.data ++ y.data := by
    simpa [String.data_append] using congrArg String.data h
  have hsep' : sep.data ≠ [] := fun hc => hsep (String.ext (by simp [hc]))
  rw [jsSplitFirst]
  cases hfo : findOcc sep.data s.data with
  | none =>
    have hx := (findOcc_isSome sep.data hsep' s.data).2 ⟨x.data, y.data, hdata⟩
    rw [hfo] at hx
    exact absurd hx (by simp)
  | some p =>
    obtain ⟨b, a⟩ := p
    obtain ⟨h1, h2⟩ := findOcc_spec _ _ _ _ hfo
    have hbx : b.length ≤ x.data.length := h2 _ _ hdata
    have hxb : x.data.length ≤ b.length := by
      have hs : s = (⟨b⟩ : String) ++ sep ++ ⟨a⟩ :=
        String.ext (by simpa [String.data_append] using h1)
      exact hmin ⟨b⟩ ⟨a⟩ hs
    obtain ⟨hb, hrest⟩ :=
      List.append_inj (by simpa [List.append_assoc] using h1.symm.trans hdata)
        (le_antisymm hbx hxb)
    have ha : a = y.data := List.append_cancel_left hrest
    subst hb
    rw [ha]

theorem jsSplitHead_of_none (s sep : String) (hsep : sep ≠ "")
    (h : ∀ x y : String, s ≠ x ++ sep ++ y) : jsSplitHead s sep = s := by
  rw [jsSplitHead, jsSplitFirst_eq_none s sep hsep h]

theorem jsSplitHead_of_first (s sep x y : String) (hsep : sep ≠ "")
    (h : s = x ++ sep ++ y)
    (hmin : ∀ x' y' : String, s = x' ++ sep ++ y' → x.length ≤ x'.length) :
    jsSplitHead s sep = x := by
  rw [jsSplitHead, jsSplitFirst_eq_some s sep x y hsep h hmin]

theorem jsSplitSecond_of_none (s sep : String) (hsep : sep ≠ "")
    (h : ∀ x y : String, s ≠ x ++ sep ++ y) : jsSplitSecond s sep = "" := by
  rw [jsSplitSecond, jsSplitFirst_eq_none s sep hsep h]

theorem jsSplitSecond_of_first (s sep x y : String) (hsep : sep ≠ "")
    (h : s = x ++ sep ++ y)
    (hmin : ∀ x' y' : String, s = x' ++ sep ++ y' → x.length ≤ x'.length) :
    jsSplitSecond s sep = jsSplitHead y sep := by
  rw [jsSplitSecond, jsSplitFirst_eq_some s sep x y hsep h hmin]

/-- A string shorter than `m` contains no occurrence of `m`. -/
theorem no_marker_of_short (s m : String) (h : s.length < m.length) :
    ∀ x y : String, s ≠ x ++ m ++ y := by
  intro x y hs
  have hl := congrArg String.length hs
  rw [String.length_append, String.length_append] at hl
  omega

/-- C2 (counterexample): on a file whose text after the DOWN marker contains
the UP marker, the code's down-body (`split('-- +migrator DOWN')[1]` then
`split('-- +migrator UP')[0]`, lines 124-125/172-173) is a strict truncation
of the suffix the claim promises, so the claimed equality fails. -/
theorem extractDown_counterexample :
    extractDown "-- +migrator DOWN\nDROP TABLE t;\n-- +migrator UP\nCREATE TABLE t;"
      = "\nDROP TABLE t;\n" ∧
    extractDownSpec "-- +migrator DOWN\nDROP TABLE t;\n-- +migrator UP\nCREATE TABLE t;"
      = "\nDROP TABLE t;\n-- +migrator UP\nCREATE TABLE t;" ∧
    extractDown "-- +migrator DOWN\nDROP TABLE t;\n-- +migrator UP\nCREATE TABLE t;"
      ≠ extractDownSpec "-- +migrator DOWN\nDROP TABLE t;\n-- +migrator UP\nCREATE TABLE t;" := by
  decide

/-- C2 (amended): the extracted down-body is the text strictly after the
first occurrence of the DOWN marker, truncated before the next occurrence of
the DOWN marker and, within that segment, before the first occurrence of the
UP marker; it is the empty string when the DOWN marker is absent.  First
occurrences are pinned by minimal-length decompositions. -/
theorem extractDown_truncates (c : String) :
    ((∀ x y : String, c ≠ x ++ downMarker ++ y) → extractDown c = "") ∧
    (∀ x y : String, c = x ++ downMarker ++ y →
      (∀ x' y' : String, c = x' ++ downMarker ++ y' → x.length ≤ x'.length) →
      (((∀ p q : String, y ≠ p ++ downMarker ++ q) ∧
        (∀ u v : String, y ≠ u ++ upMarker ++ v)) → extractDown c = y) ∧
      (∀ u v : String, y = u ++ upMarker ++ v →
        (∀ u' v' : String, y = u' ++ upMarker ++ v' → u.length ≤ u'.length) →
        (∀ p q : String, y ≠ p ++ downMarker ++ q) → extractDown c = u) ∧
      (∀ p q : String, y = p ++ downMarker ++ q →
        (∀ p' q' : String, y = p' ++ downMarker ++ q' → p.length ≤ p'.length) →
        ((∀ u v : String, p ≠ u ++ upMarker ++ v) → extractDown c = p) ∧
        (∀ u v : String, p = u ++ upMarker ++ v →
          (∀ u' v' : String, p = u' ++ upMarker ++ v' → u.length ≤ u'.length) →
          extractDown c = u))) := by
  constructor
  · intro h
    rw [extractDown, jsSplitSecond_of_none c downMarker (by decide) h]
    decide
  · intro x y hxy hmin
    have hsec : jsSplitSecond c downMarker = jsSplitHead y downMarker :=
      jsSplitSecond_of_first c downMarker x y (by decide) hxy hmin
    refine ⟨?_, ?_, ?_⟩
    · rintro ⟨hnd, hnu⟩
      rw [extractDown, hsec, jsSplitHead_of_none y downMarker (by decide) hnd,
        jsSplitHead_of_none y upMarker (by decide) hnu]
    · intro u v huv humin hnd
      rw [extractDown, hsec, jsSplitHead_of_none y downMarker (by decide) hnd,
        jsSplitHead_of_first y upMarker u v (by decide) huv humin]
    · intro p q hpq hpmin
      have hhead : jsSplitHead y downMarker = p :=
        jsSplitHead_of_first y downMarker p q (by decide) hpq hpmin
      constructor
      · intro hnu
        rw [extractDown, hsec, hhead, jsSplitHead_of_none p upMarker (by decide) hnu]
      · intro u v huv humin
        rw [extractDown, hsec, hhead,
          jsSplitHead_of_first p upMarker u v (by decide) huv humin]

/-- Witness for the amended C2: a file that is the DOWN marker followed by
`"X"` has down-body `"X"`. -/
theorem extractDown_truncates_witness :
    extractDown "-- +migrator DOWNX" = "X" :=
  ((extractDown_truncates "-- +migrator DOWNX").2 "" "X" (by decide)
      (fun _ _ _ => Nat.zero_le _)).1
    ⟨no_marker_of_short "X" downMarker (by decide),
     no_marker_of_short "X" upMarker (by decide)⟩

/-- C5: invoking Down with kind seed fails with the unsupported-operation
error (lines 107-109) before consulting the ledger or executing any SQL:
for every directory and ledger state the result is the error, with no
executed SQL and the ledger rows returned untouched. -/
theorem migrateDown_seed_unsupported (dir : Dir) (ledger : List String) :
    migrateDown dir ledger .seed = ⟨some .seedUnsupported, [], ledger⟩ :=
  rfl

/-- C8: `new` with an empty name throws `name argument required` (line 189)
and changes nothing; with a non-empty name it succeeds, ensures the
directory exists, writes exactly the file `{timestamp}_{name}.sql` (leaving
every other path untouched), and the written template contains both the UP
marker and the DOWN marker. -/
theorem generateMigration_spec (fsS : FsState) (name timestamp : String) :
    (name = "" → generateMigration fsS name timestamp = (some (), fsS)) ∧
    (name ≠ "" →
      (generateMigration fsS name timestamp).1 = none ∧
      (generateMigration fsS name timestamp).2.dirExists = true ∧
      (generateMigration fsS name timestamp).2.files
          (timestamp ++ "_" ++ name ++ ".sql") = some migrationTemplate ∧
      (∀ p, p ≠ timestamp ++ "_" ++ name ++ ".sql" →
        (generateMigration fsS name timestamp).2.files p = fsS.files p) ∧
      (∃ x y : String, migrationTemplate = x ++ upMarker ++ y) ∧
      (∃ x y : String, migrationTemplate = x ++ downMarker ++ y)) := by
  constructor
  · intro h
    subst h
    rfl
  · intro h
    have hd : name.data ≠ [] := fun hc => h (String.ext (by simp [hc]))
    have hpos : 0 < name.data.length := List.length_pos.2 hd
    have hlen : ¬ name.length < 1 := by
      show ¬ name.data.length < 1
      omega
    have hres : generateMigration fsS name timestamp =
        (none, ⟨true, fun p =>
          if p = timestamp ++ "_" ++ name ++ ".sql" then some migrationTemplate
          else fsS.files p⟩) := by
      rw [generateMigration, if_neg hlen]
    refine ⟨by rw [hres], by rw [hres], ?_, ?_, ?_, ?_⟩
    · rw [hres]
      simp
    · intro p hp
      rw [hres]
      simp [hp]
    · exact ⟨"", "\n-- +migrator statement BEGIN\n\n-- +migrator statement END\n\n\n-- +migrator DOWN\n-- +migrator statement BEGIN\n\n-- +migrator statement END\n", by decide⟩
    · exact ⟨"-- +migrator UP\n-- +migrator statement BEGIN\n\n-- +migrator statement END\n\n\n", "\n-- +migrator statement BEGIN\n\n-- +migrator statement END\n", by decide⟩

/-- Witness for C8: a concrete `new` run writes the template at
`20240115143022_init.sql`. -/
theorem generateMigration_spec_witness :
    (generateMigration ⟨false, fun _ => none⟩ "init" "20240115143022").2.files
        "20240115143022_init.sql" = some migrationTemplate :=
  ((generateMigration_spec ⟨false, fun _ => none⟩ "init" "20240115143022").2
    (by decide)).2.2.1

/-- C10: when a file already exists at the target path, `new` with a
non-empty name does not fail and silently replaces that file's contents
with the empty template (`fs.writeFileSync`, line 208). -/
theorem generateMigration_overwrites (fsS : FsState) (name timestamp old : String)
    (hname : name ≠ "")
    (hold : fsS.files (timestamp ++ "_" ++ name ++ ".sql") = some old) :
    (generateMigration fsS name timestamp).1 = none ∧
    (generateMigration fsS name timestamp).2.files
        (timestamp ++ "_" ++ name ++ ".sql") = some migrationTemplate := by
  obtain ⟨h1, -, h3, -⟩ := (generateMigration_spec fsS name timestamp).2 hname
  exact ⟨h1, h3⟩

/-- Witness for C10: a second `new` call in the same wall-clock second
replaces an authored script with the template. -/
theorem generateMigration_overwrites_witness :
    (generateMigration
        ⟨true, fun p => if p = "20240115143022_init.sql"
          then some "-- +migrator UP\nCREATE TABLE t(id int);" else none⟩
        "init" "20240115143022").2.files "20240115143022_init.sql"
      = some migrationTemplate :=
  (generateMigration_overwrites
      ⟨true, fun p => if p = "20240115143022_init.sql"
        then some "-- +migrator UP\nCREATE TABLE t(id int);" else none⟩
      "init" "20240115143022" "-- +migrator UP\nCREATE TABLE t(id int);"
      (by decide) (by decide)).2

/-- C1: on a fully-covered migrations store, Reset executes each matched
file's DOWN body in descending filename order and empties the ledger — but
line 180 then runs `DROP TABLE IF EXISTS node_migrator_seeds`, so the
migrations ledger table still exists (empty) and the seed ledger table is
the one dropped, contradicting the claimed "drop the (now-empty) migrations
ledger table".  Evaluated on a concrete two-script store. -/
theorem migrateReset_keeps_migration_table :
    migrateReset
        [("20240101000000_init.sql",
          "-- +migrator UP\nCREATE TABLE a;\n-- +migrator DOWN\nDROP TABLE a;\n"),
         ("20240102000000_two.sql",
          "-- +migrator UP\nCREATE TABLE b;\n-- +migrator DOWN\nDROP TABLE b;\n")]
        ⟨some ["20240101000000", "20240102000000"], some []⟩ .migration
      = ⟨none, ["\nDROP TABLE b;\n", "\nDROP TABLE a;\n"], ⟨some [], none⟩⟩ ∧
    (migrateReset
        [("20240101000000_init.sql",
          "-- +migrator UP\nCREATE TABLE a;\n-- +migrator DOWN\nDROP TABLE a;\n"),
         ("20240102000000_two.sql",
          "-- +migrator UP\nCREATE TABLE b;\n-- +migrator DOWN\nDROP TABLE b;\n")]
        ⟨some ["20240101000000", "20240102000000"], some []⟩ .migration).db.migTable
      ≠ none := by
  decide

/-! ### Lemmas on the sort order and `migrateUp` -/

theorem strLe_go_total (x y : List Char) :
    strLe.go x y = true ∨ strLe.go y x = true := by
  induction x generalizing y with
  | nil => left; rfl
  | cons c cs ih =>
    cases y with
    | nil => right; rfl
    | cons d ds =>
      by_cases hcd : c = d
      · subst hcd
        rcases ih ds with h | h
        · left; simpa [strLe.go] using h
        · right; simpa [strLe.go] using h
      · rcases lt_or_gt_of_ne hcd with h | h
        · left; simp [strLe.go, hcd, h]
        · right; simp [strLe.go, Ne.symm hcd, h]

theorem strLe_go_trans (x y z : List Char) (hxy : strLe.go x y = true)
    (hyz : strLe.go y z = true) : strLe.go x z = true := by
  induction x generalizing y z with
  | nil => rfl
  | cons c cs ih =>
    cases y with
    | nil => simp [strLe.go] at hxy
    | cons d ds =>
      cases z with
      | nil => simp [strLe.go] at hyz
      | cons e es =>
        by_cases hcd : c = d <;> by_cases hde : d = e
        · subst hcd hde
          simp only [strLe.go, if_pos rfl] at hxy hyz ⊢
          exact ih ds es hxy hyz
        · subst hcd
          simp only [strLe.go, if_neg hde, decide_eq_true_iff] at hyz
          simp [strLe.go, hde, hyz]
        · subst hde
          simp only [strLe.go, if_neg hcd, decide_eq_true_iff] at hxy
          simp [strLe.go, hcd, hxy]
        · simp only [strLe.go, if_neg hcd, decide_eq_true_iff] at hxy
          simp only [strLe.go, if_neg hde, decide_eq_true_iff] at hyz
          have hce : c < e := lt_trans hxy hyz
          simp [strLe.go, ne_of_lt hce, hce]

theorem strLeR_total (a b : String) : strLeR a b ∨ strLeR b a :=
  strLe_go_total a.data b.data

theorem strLeR_trans (a b c : String) (h1 : strLeR a b) (h2 : strLeR b c) :
    strLeR a c :=
  strLe_go_trans a.data b.data c.data h1 h2

theorem jsSort_perm (l : List String) : (jsSort l).Perm l :=
  List.perm_insertionSort strLeR l

theorem jsSort_sorted (l : List String) : List.Sorted strLeR (jsSort l) :=
  @List.sorted_insertionSort String strLeR _ ⟨strLeR_total⟩
    ⟨fun _ _ _ => strLeR_trans _ _ _⟩ l

theorem mem_upPending (dir : Dir) (versions : List String) (f : String) :
    f ∈ upPending dir versions ↔
      f ∈ readdir dir ∧ strEndsWith f ".sql" = true ∧
        parseVersion f ∉ versions := by
  rw [upPending, (jsSort_perm _).mem_iff, List.mem_filter]
  simp only [Bool.and_eq_true, Bool.not_eq_true']
  constructor
  · rintro ⟨hmem, hnc, hend⟩
    refine ⟨hmem, hend, fun hv => ?_⟩
    have hc : versions.contains (parseVersion f) = true := List.elem_iff.2 hv
    rw [hnc] at hc
    cases hc
  · rintro ⟨hmem, hend, hnv⟩
    refine ⟨hmem, ?_, hend⟩
    by_contra hc
    simp only [Bool.not_eq_false, List.contains] at hc
    exact hnv (List.elem_iff.1 hc)

theorem upLoop_sqls_acc (fails : String → Bool) (dir : Dir) (pending : List String) :
    ∀ acc ledger, ∃ tail,
      (upLoop fails dir pending acc ledger).sqls = acc.reverse ++ tail := by
  induction pending with
  | nil => intro acc ledger; exact ⟨[], by simp [upLoop]⟩
  | cons f rest ih =>
    intro acc ledger
    rw [upLoop]
    by_cases hf : fails (extractUp (readFile dir f)) = true
    · exact ⟨[extractUp (readFile dir f)], by simp [hf]⟩
    · obtain ⟨tail, htail⟩ :=
        ih (extractUp (readFile dir f) :: acc) (ledger ++ [parseVersion f])
      refine ⟨extractUp (readFile dir f) :: tail, ?_⟩
      simp only [Bool.not_eq_true] at hf
      simp [hf, htail]

theorem upLoop_ok (fails : String → Bool) (dir : Dir) (files : List String) :
    ∀ acc ledger, (∀ f ∈ files, fails (extractUp (readFile dir f)) = false) →
      upLoop fails dir files acc ledger =
        ⟨none, acc.reverse ++ files.map (fun f => extractUp (readFile dir f)),
          ledger ++ files.map parseVersion⟩ := by
  induction files with
  | nil => intro acc ledger _; simp [upLoop]
  | cons f rest ih =>
    intro acc ledger hok
    rw [upLoop]
    have hf := hok f (by simp)
    rw [if_neg (by simp [hf])]
    rw [ih _ _ (fun g hg => hok g (by simp [hg]))]
    simp

theorem upLoop_fail (fails : String → Bool) (dir : Dir) (fN : String) (post : List String)
    (hfail : fails (extractUp (readFile dir fN)) = true) (pre : List String) :
    ∀ acc ledger, (∀ f ∈ pre, fails (extractUp (readFile dir f)) = false) →
      upLoop fails dir (pre ++ fN :: post) acc ledger =
        ⟨some fN,
          acc.reverse ++ pre.map (fun f => extractUp (readFile dir f))
            ++ [extractUp (readFile dir fN)],
          ledger ++ pre.map parseVersion⟩ := by
  induction pre with
  | nil =>
    intro acc ledger _
    rw [List.nil_append, upLoop, if_pos hfail]
    simp
  | cons f rest ih =>
    intro acc ledger hok
    have hf := hok f (by simp)
    rw [List.cons_append, upLoop, if_neg (by simp [hf])]
    rw [ih _ _ (fun g hg => hok g (by simp [hg]))]
    simp

theorem upLoop_records (fails : String → Bool) (dir : Dir) (pending : List String) :
    ∀ acc ledger, ∃ done : List String,
      (upLoop fails dir pending acc ledger).ledger = ledger ++ done.map parseVersion ∧
      ∀ f ∈ done, fails (extractUp (readFile dir f)) = false ∧
        extractUp (readFile dir f) ∈ (upLoop fails dir pending acc ledger).sqls := by
  induction pending with
  | nil => intro acc ledger; exact ⟨[], by simp [upLoop], by simp⟩
  | cons f rest ih =>
    intro acc ledger
    by_cases hf : fails (extractUp (readFile dir f)) = true
    · refine ⟨[], ?_, by simp⟩
      rw [upLoop, if_pos hf]
      simp
    · simp only [Bool.not_eq_true] at hf
      obtain ⟨done, hled, hdone⟩ :=
        ih (extractUp (readFile dir f) :: acc) (ledger ++ [parseVersion f])
      refine ⟨f :: done, ?_, ?_⟩
      · rw [upLoop, if_neg (by simp [hf]), hled]
        simp
      · intro g hg
        rcases List.mem_cons.1 hg with rfl | hg'
        · refine ⟨hf, ?_⟩
          rw [upLoop, if_neg (by simp [hf])]
          obtain ⟨tail, htail⟩ := upLoop_sqls_acc fails dir rest
            (extractUp (readFile dir g) :: acc) (ledger ++ [parseVersion g])
          rw [htail]
          simp
        · obtain ⟨h1, h2⟩ := hdone g hg'
          refine ⟨h1, ?_⟩
          rw [upLoop, if_neg (by simp [hf])]
          exact h2

/-- C9: a version is inserted into the ledger only for files whose UP body
was executed without error (the `INSERT` of line 95 follows the
`db.query(sql)` of line 92): after any Up run, aborted or not, the ledger
is the old ledger plus the versions of files whose UP bodies were executed
and did not fail. -/
theorem migrateUp_records_only_executed (fails : String → Bool) (dir : Dir)
    (ledger : List String) :
    ∃ done : List String,
      (migrateUp fails dir ledger).ledger = ledger ++ done.map parseVersion ∧
      ∀ f ∈ done, fails (extractUp (readFile dir f)) = false ∧
        extractUp (readFile dir f) ∈ (migrateUp fails dir ledger).sqls :=
  upLoop_records fails dir (upPending dir ledger) [] ledger

/-- C3: with every applied version backed by a `.sql` file and no failing
UP body, Up executes exactly the pending files — the `.sql` directory
entries whose version is not applied — in ascending filename order,
recording each version; afterwards the applied set equals the `.sql`
versions of the store, and running Up again executes nothing and leaves the
ledger unchanged. -/
theorem migrateUp_applies_all_pending (fails : String → Bool) (dir : Dir)
    (ledger : List String)
    (hsub : ∀ v ∈ ledger, v ∈ sqlVersions dir)
    (hok : ∀ f ∈ upPending dir ledger, fails (extractUp (readFile dir f)) = false) :
    migrateUp fails dir ledger =
      ⟨none, (upPending dir ledger).map (fun f => extractUp (readFile dir f)),
        ledger ++ (upPending dir ledger).map parseVersion⟩ ∧
    (∀ f, f ∈ upPending dir ledger ↔
      f ∈ readdir dir ∧ strEndsWith f ".sql" = true ∧ parseVersion f ∉ ledger) ∧
    List.Sorted strLeR (upPending dir ledger) ∧
    (∀ v, v ∈ ledger ++ (upPending dir ledger).map parseVersion ↔
      v ∈ sqlVersions dir) ∧
    migrateUp fails dir (ledger ++ (upPending dir ledger).map parseVersion) =
      ⟨none, [], ledger ++ (upPending dir ledger).map parseVersion⟩ := by
  have hset : ∀ v, v ∈ ledger ++ (upPending dir ledger).map parseVersion ↔
      v ∈ sqlVersions dir := by
    intro v
    constructor
    · intro hv
      rcases List.mem_append.1 hv with hv | hv
      · exact hsub v hv
      · obtain ⟨f, hf, rfl⟩ := List.mem_map.1 hv
        obtain ⟨hrd, hend, -⟩ := (mem_upPending dir ledger f).1 hf
        exact List.mem_map.2 ⟨f, List.mem_filter.2 ⟨hrd, hend⟩, rfl⟩
    · intro hv
      obtain ⟨f, hf, rfl⟩ := List.mem_map.1 hv
      obtain ⟨hrd, hend⟩ := List.mem_filter.1 hf
      by_cases hvl : parseVersion f ∈ ledger
      · exact List.mem_append.2 (Or.inl hvl)
      · exact List.mem_append.2 (Or.inr
          (List.mem_map.2 ⟨f, (mem_upPending _ _ _).2 ⟨hrd, hend, hvl⟩, rfl⟩))
  have hempty : upPending dir (ledger ++ (upPending dir ledger).map parseVersion)
      = [] := by
    rw [upPending]
    have hfil : (readdir dir).filter (fun file =>
        !((ledger ++ (upPending dir ledger).map parseVersion).contains
          (parseVersion file)) && strEndsWith file ".sql") = [] := by
      rw [List.filter_eq_nil_iff]
      intro f hf
      simp only [Bool.and_eq_true, Bool.not_eq_true', not_and]
      intro hcont hend
      have hv : parseVersion f ∈ ledger ++ (upPending dir ledger).map parseVersion :=
        (hset (parseVersion f)).2
          (List.mem_map.2 ⟨f, List.mem_filter.2 ⟨hf, hend⟩, rfl⟩)
      have : (ledger ++ (upPending dir ledger).map parseVersion).contains
          (parseVersion f) = true := List.elem_iff.2 hv
      rw [this] at hcont
      cases hcont
    rw [hfil]
    rfl
  refine ⟨?_, mem_upPending dir ledger, jsSort_sorted _, hset, ?_⟩
  · rw [migrateUp, upLoop_ok fails dir _ [] ledger hok]
    simp
  · rw [migrateUp, hempty, upLoop]
    simp

/-- Witness for C3: one pending script gets applied and recorded. -/
theorem migrateUp_applies_all_pending_witness :
    migrateUp (fun _ => false) [("1_a.sql", "-- +migrator UPCREATE")] [] =
      ⟨none, ["CREATE"], ["1"]⟩ :=
  ((migrateUp_applies_all_pending (fun _ => false)
      [("1_a.sql", "-- +migrator UPCREATE")] [] (by simp)
      (fun _ _ => rfl)).1).trans (by decide)

/-- C4: when the UP body of pending file `fN` fails, the run aborts with an
error: the files before `fN` were executed and their versions recorded, and
neither `fN` nor any later pending file had its version recorded (later
files' bodies are not among the executed SQL at all). -/
theorem migrateUp_fail_fast (fails : String → Bool) (dir : Dir)
    (ledger : List String) (pre : List String) (fN : String) (post : List String)
    (hpend : upPending dir ledger = pre ++ fN :: post)
    (hpre : ∀ f ∈ pre, fails (extractUp (readFile dir f)) = false)
    (hfail : fails (extractUp (readFile dir fN)) = true)
    (hnodup : ((upPending dir ledger).map parseVersion).Nodup) :
    migrateUp fails dir ledger =
      ⟨some fN,
        pre.map (fun f => extractUp (readFile dir f)) ++ [extractUp (readFile dir fN)],
        ledger ++ pre.map parseVersion⟩ ∧
    parseVersion fN ∉ ledger ++ pre.map parseVersion ∧
    (∀ f ∈ post, parseVersion f ∉ ledger ++ pre.map parseVersion) := by
  have h1 : migrateUp fails dir ledger =
      ⟨some fN,
        pre.map (fun f => extractUp (readFile dir f)) ++ [extractUp (readFile dir fN)],
        ledger ++ pre.map parseVersion⟩ := by
    rw [migrateUp, hpend, upLoop_fail fails dir fN post hfail pre [] ledger hpre]
    simp
  rw [hpend] at hnodup
  simp only [List.map_append, List.map_cons, List.nodup_append] at hnodup
  obtain ⟨-, -, hdisj⟩ := hnodup
  have hmemN : fN ∈ upPending dir ledger := by rw [hpend]; simp
  have hvNl : parseVersion fN ∉ ledger := ((mem_upPending _ _ _).1 hmemN).2.2
  refine ⟨h1, ?_, ?_⟩
  · intro hc
    rcases List.mem_append.1 hc with hc | hc
    · exact hvNl hc
    · exact hdisj hc (by simp)
  · intro f hfpost hc
    have hmemf : f ∈ upPending dir ledger := by rw [hpend]; simp [hfpost]
    have hvfl : parseVersion f ∉ ledger := ((mem_upPending _ _ _).1 hmemf).2.2
    rcases List.mem_append.1 hc with hc | hc
    · exact hvfl hc
    · exact hdisj hc (by simp [List.mem_map.2 ⟨f, hfpost, rfl⟩])

/-- Witness for C4: of two pending scripts the second's UP body fails; the
first stays recorded, the second and nothing after it is recorded. -/
theorem migrateUp_fail_fast_witness :
    migrateUp (fun s => s == "BOOM")
        [("1_a.sql", "-- +migrator UPok"), ("2_b.sql", "-- +migrator UPBOOM")] [] =
      ⟨some "2_b.sql", ["ok", "BOOM"], ["1"]⟩ :=
  ((migrateUp_fail_fast (fun s => s == "BOOM")
      [("1_a.sql", "-- +migrator UPok"), ("2_b.sql", "-- +migrator UPBOOM")] []
      ["1_a.sql"] "2_b.sql" [] (by decide) (by decide) (by decide) (by decide)).1).trans
    (by decide)

/-! ### Lemmas on `migrateDown` and `migrateReset` -/

theorem migrateDown_last (dir : Dir) (init : List String) (v : String)
    (hnd : (init ++ [v]).Nodup) (hfind : (findScript dir v).isSome = true) :
    ∃ file, findScript dir v = some file ∧
      migrateDown dir (init ++ [v]) .migration =
        ⟨none, [extractDown (readFile dir file)], init⟩ := by
  obtain ⟨file, hfile⟩ := Option.isSome_iff_exists.1 hfind
  refine ⟨file, hfile, ?_⟩
  rw [migrateDown]
  simp only [List.getLast?_concat, hfile]
  have hvinit : v ∉ init := by
    rw [List.nodup_append] at hnd
    exact fun hc => hnd.2.2 hc (by simp)
  have hfil : (init ++ [v]).filter (fun w => w ≠ v) = init := by
    rw [List.filter_append]
    have h2 : [v].filter (fun w => w ≠ v) = [] := by simp
    have h1 : init.filter (fun w => w ≠ v) = init :=
      List.filter_eq_self.2 (fun w hw => by
        simp only [decide_eq_true_iff]
        exact fun hc => hvinit (hc ▸ hw))
    rw [h1, h2, List.append_nil]
  rw [hfil]

theorem iterDown_to_empty (dir : Dir) : ∀ n (ledger : List String),
    ledger.length = n → ledger.Nodup →
    (∀ v ∈ ledger, (findScript dir v).isSome = true) →
    iterDown dir ledger n = .ok [] := by
  intro n
  induction n with
  | zero =>
    intro ledger hlen _ _
    rw [List.length_eq_zero.1 hlen]
    rfl
  | succ m ih =>
    intro ledger hlen hnd hcov
    rcases List.eq_nil_or_concat ledger with rfl | ⟨init, v, rfl⟩
    · simp at hlen
    · rw [List.concat_eq_append] at *
      obtain ⟨file, -, hstep⟩ := migrateDown_last dir init v hnd
        (hcov v (by simp))
      rw [iterDown, downStep, hstep]
      simp only
      have hlen' : init.length = m := by
        rw [List.length_append] at hlen
        simpa using hlen
      exact ih init hlen' (List.nodup_append.1 hnd).1
        (fun w hw => hcov w (by simp [hw]))

/-- C6: on a duplicate-free non-empty applied sequence whose versions all
have matching scripts, Down executes the DOWN body of exactly the script
found for the most recently applied version (the last ledger row), deletes
that version's record — restoring the previous applied set, never
cascading — and iterating Down once per applied version empties the ledger,
after which Down fails with the no-applied-version error. -/
theorem migrateDown_one_step_walk (dir : Dir) (ledger : List String)
    (hnd : ledger.Nodup)
    (hcov : ∀ v ∈ ledger, (findScript dir v).isSome = true) :
    (∀ init v, ledger = init ++ [v] →
      ∃ file, findScript dir v = some file ∧
        migrateDown dir ledger .migration =
          ⟨none, [extractDown (readFile dir file)], init⟩) ∧
    iterDown dir ledger ledger.length = .ok [] ∧
    migrateDown dir [] .migration = ⟨some .noApplied, [], []⟩ := by
  refine ⟨?_, iterDown_to_empty dir ledger.length ledger rfl hnd hcov, rfl⟩
  rintro init v rfl
  exact migrateDown_last dir init v hnd (hcov v (by simp))

/-- Witness for C6: one applied version is walked back to the empty ledger
in one step. -/
theorem migrateDown_one_step_walk_witness :
    iterDown [("1_a.sql", "-- +migrator DOWNdrop")] ["1"] 1 = .ok [] :=
  (migrateDown_one_step_walk [("1_a.sql", "-- +migrator DOWNdrop")] ["1"]
    (by decide) (by decide)).2.1

/-- C7: a migrations Reset in which some applied version has no matching
`.sql` script (here under the data-model invariant that the `.sql`
versions of the directory are duplicate-free) throws the missing-version
error of line 165, listing that version, executing no script body and
leaving both ledger tables exactly as they were. -/
theorem migrateReset_missing_aborts (dir : Dir) (versions : List String) (db : Db)
    (hdb : db.migTable = some versions)
    (hvnd : (sqlVersions dir).Nodup)
    (v : String) (hv : v ∈ versions) (hvm : v ∉ sqlVersions dir) :
    ∃ missing, migrateReset dir db .migration = ⟨some missing, [], db⟩ ∧
      v ∈ missing := by
  simp only [migrateReset, hdb, Option.getD_some]
  set F := (jsSort ((readdir dir).filter fun file =>
    versions.contains (parseVersion file) && strEndsWith file ".sql")).reverse with hFdef
  have hfq : F.filter (fun file => F.contains file) = F :=
    List.filter_eq_self.2 (fun f hf => List.elem_iff.2 hf)
  rw [hfq]
  have hperm : F.Perm ((readdir dir).filter fun file =>
      versions.contains (parseVersion file) && strEndsWith file ".sql") :=
    (List.reverse_perm _).trans (jsSort_perm _)
  have hGE : (((readdir dir).filter fun file => strEndsWith file ".sql").filter
      (fun file => versions.contains (parseVersion file)))
      = (readdir dir).filter fun file =>
        versions.contains (parseVersion file) && strEndsWith file ".sql" :=
    List.filter_filter _ _
  have hGsub : List.Sublist
      ((readdir dir).filter fun file =>
        versions.contains (parseVersion file) && strEndsWith file ".sql")
      ((readdir dir).filter fun file => strEndsWith file ".sql") :=
    hGE ▸ List.filter_sublist _
  have hGnd : (((readdir dir).filter fun file =>
      versions.contains (parseVersion file) && strEndsWith file ".sql").map
        parseVersion).Nodup :=
    List.Nodup.sublist (List.Sublist.map parseVersion hGsub) hvnd
  have hFnd : (F.map parseVersion).Nodup :=
    ((hperm.map parseVersion).nodup_iff).2 hGnd
  have hFmem : ∀ f ∈ F, f ∈ readdir dir ∧
      versions.contains (parseVersion f) = true ∧ strEndsWith f ".sql" = true := by
    intro f hf
    obtain ⟨h1, h2⟩ := List.mem_filter.1 (hperm.mem_iff.1 hf)
    rw [Bool.and_eq_true] at h2
    exact ⟨h1, h2⟩
  have hFsub : ∀ w ∈ F.map parseVersion, w ∈ versions := by
    intro w hw
    obtain ⟨f, hf, rfl⟩ := List.mem_map.1 hw
    exact List.elem_iff.1 (hFmem f hf).2.1
  have hFsql : ∀ w ∈ F.map parseVersion, w ∈ sqlVersions dir := by
    intro w hw
    obtain ⟨f, hf, rfl⟩ := List.mem_map.1 hw
    exact List.mem_map.2 ⟨f, List.mem_filter.2 ⟨(hFmem f hf).1, (hFmem f hf).2.2⟩, rfl⟩
  have hvS : v ∉ F.map parseVersion := fun hc => hvm (hFsql v hc)
  have hlt : F.length < versions.length := by
    have h1 : (F.map parseVersion).length = F.length := List.length_map _ _
    have h2 : (F.map parseVersion).toFinset.card = (F.map parseVersion).length :=
      List.toFinset_card_of_nodup hFnd
    have hsubF : (F.map parseVersion).toFinset ⊆ versions.toFinset := fun w hw =>
      List.mem_toFinset.2 (hFsub w (List.mem_toFinset.1 hw))
    have hss : (F.map parseVersion).toFinset ⊂ versions.toFinset :=
      (Finset.ssubset_iff_of_subset hsubF).2
        ⟨v, List.mem_toFinset.2 hv, fun hc => hvS (List.mem_toFinset.1 hc)⟩
    have h3 := Finset.card_lt_card hss
    have h4 := List.toFinset_card_le versions
    omega
  rw [if_pos (by omega : F.length ≠ versions.length)]
  refine ⟨versions.filter (fun w => !(F.map parseVersion).contains w), rfl, ?_⟩
  refine List.mem_filter.2 ⟨hv, ?_⟩
  simp only [Bool.not_eq_true']
  by_contra hc
  simp only [Bool.not_eq_false] at hc
  exact hvS (List.elem_iff.1 hc)

/-- Witness for C7: version 20240101000000 is applied but has no script;
Reset reports it and leaves the tables unchanged. -/
theorem migrateReset_missing_aborts_witness :
    ∃ missing, migrateReset [("20240102000000_two.sql", "x")]
        ⟨some ["20240101000000", "20240102000000"], some []⟩ .migration
      = ⟨some missing, [],
          ⟨some ["20240101000000", "20240102000000"], some []⟩⟩ ∧
      "20240101000000" ∈ missing :=
  migrateReset_missing_aborts [("20240102000000_two.sql", "x")]
    ["20240101000000", "20240102000000"]
    ⟨some ["20240101000000", "20240102000000"], some []⟩ rfl (by decide)
    "20240101000000" (by decide) (by decide)
